import Mathlib

/-!
Shallow embedding of the osm-brasil-conflation pipeline.

The repository reconciles two point datasets of traffic signals:
a municipal (local) dataset and an OpenStreetMap (reference) dataset.
The core logic lives in src/scripts/conflate.py (buffered spatial joins
and a three-way classification) and src/scripts/clean.py (date
normalisation).  Coordinates are modelled as rational pairs in the
metric plane; the geopandas spatial joins are modelled relationally;
the pandas missing-value conventions (NaN, str(nan) = "nan") are made
explicit; the fallible coordinate reprojections (to_crs) are modelled
as functions into Except.
-/

namespace OsmConflation

/-- A planar coordinate pair, used both for geographic (lon, lat) and
metric (x, y) coordinates.  The float coordinates of the source are
binary rationals, so after a fixed scaling every concrete coordinate of
interest is an integer; the integer plane keeps every definition
kernel-computable. -/
abbrev Pt : Type := ℤ × ℤ

/-- The fixed buffer radius, BUFFER_METERS = 65 in conflate.py. -/
def BUFFER_METERS : ℤ := 65

/-- Squared Euclidean distance between two metric points. -/
def sqDist (p q : Pt) : ℤ := (p.1 - q.1) * (p.1 - q.1) + (p.2 - q.2) * (p.2 - q.2)

/-- Shapely predicate within(point, buffer(center, 65)): the point must
meet the interior of the disc, so a point at exactly radius distance is
not within.  Models the predicate of sjoin(osm, local_buffered,
predicate = within). -/
def pointWithinBuffer (p center : Pt) : Bool :=
  decide (sqDist p center < BUFFER_METERS * BUFFER_METERS)

/-- Shapely predicate contains(buffer(center, 65), point): the point
(whose interior is itself) must lie in the interior of the disc.
Models the predicate of sjoin(local_buffered, osm, predicate =
contains). -/
def bufferContainsPoint (center p : Pt) : Bool :=
  decide (sqDist center p < BUFFER_METERS * BUFFER_METERS)

/-- A local (municipal) feature after clean.py: a point plus the four
canonical attributes.  Absent attributes are none, matching the NaN a
missing GeoJSON property becomes in pandas. -/
structure LocalFeature where
  pt : Pt
  ref : Option String
  start_date : Option String
  highway : Option String
  traffic_signals : Option String
deriving DecidableEq

/-- A reference (OSM) feature as built by get_osm_data in conflate.py:
osm_id is always populated there, ref and start_date may be absent. -/
structure OsmFeature where
  pt : Pt
  osm_id : Int
  osm_ref : Option String
  osm_date : Option String
deriving DecidableEq

/-- A local feature paired with its metric coordinate (the geom_point
column of local_gdf_m, which is also the buffer center). -/
structure LocalM where
  feat : LocalFeature
  m : Pt
deriving DecidableEq

/-- A reference feature paired with its metric coordinate. -/
structure OsmM where
  feat : OsmFeature
  m : Pt
deriving DecidableEq

/-- Rows a geopandas left spatial join produces for one driving row:
one row per matching right-hand row, or a single row with a null
partner when nothing matches. -/
def sjoinRows {α β : Type} (pr : α → β → Bool) (B : List β) (a : α) :
    List (α × Option β) :=
  if (B.filter fun b => pr a b).isEmpty then [(a, none)]
  else (B.filter fun b => pr a b).map fun b => (a, some b)

/-- Left (outer) spatial join, gpd.sjoin(A, B, how = left): every row
of the driving frame A is preserved; each match contributes one row. -/
def sjoinLeft {α β : Type} (A : List α) (B : List β) (pr : α → β → Bool) :
    List (α × Option β) :=
  match A with
  | [] => []
  | a :: rest => sjoinRows pr B a ++ sjoinLeft rest B pr

/-- The R to L join of conflate.py: sjoin(osm_gdf_m,
local_gdf_m_buffered, how = left, predicate = within). -/
def joinedOsmToLocal (Rm : List OsmM) (Lm : List LocalM) :
    List (OsmM × Option LocalM) :=
  sjoinLeft Rm Lm fun r l => pointWithinBuffer r.m l.m

/-- The L to R join of conflate.py: sjoin(local_gdf_m_buffered,
osm_gdf_m, how = left, predicate = contains). -/
def joinedLocalToOsm (Lm : List LocalM) (Rm : List OsmM) :
    List (LocalM × Option OsmM) :=
  sjoinLeft Lm Rm fun l r => bufferContainsPoint l.m r.m

/-- pd.isna on an optional string attribute. -/
def isna : Option String → Bool
  | none => true
  | some _ => false

/-- Python str applied to an attribute cell: a missing cell is the
float NaN and str(nan) is the string nan. -/
def pdStr : Option String → String
  | none => "nan"
  | some s => s

/-- Python str.strip on both ends, over the character list. -/
def stripChars (cs : List Char) : List Char :=
  ((cs.dropWhile Char.isWhitespace).reverse.dropWhile Char.isWhitespace).reverse

/-- Python str.strip for strings. -/
def pyStrip (s : String) : String := ⟨stripChars s.data⟩

/-- The local-side presence test of conflate.py:
not pd.isna(v) and str(v).strip() is not empty. -/
def localHasValue (v : Option String) : Bool :=
  !(isna v) && !(pyStrip (pdStr v) == "")

/-- The reference-side absence test of conflate.py:
pd.isna(v) or str(v).strip() is empty or the nan sentinel. -/
def osmValueAbsent (v : Option String) : Bool :=
  isna v || (pyStrip (pdStr v) == "" || pyStrip (pdStr v) == "nan")

/-- The needs_update flag computed per matched row in conflate.py. -/
def needsUpdate (localRef localDate osmRef osmDate : Option String) : Bool :=
  (localHasValue localRef && osmValueAbsent osmRef) ||
  (localHasValue localDate && osmValueAbsent osmDate)

/-- Properties emitted for an incomplete pair. -/
structure IncompleteProps where
  osm_id : Int
  ref : String
  check_date : String
deriving DecidableEq

/-- The props dict built for a flagged pair: the reference osm_id,
str(local_ref), and str(local_date) or the empty string when the local
date is missing. -/
def mkIncompleteProps (osmId : Int) (localRef localDate : Option String) :
    IncompleteProps :=
  { osm_id := osmId
    ref := pdStr localRef
    check_date := if isna localDate then "" else pdStr localDate }

/-- An output feature of the incomplete file: the reference point
geometry plus the patch properties. -/
structure IncompleteFeature where
  geometry : Pt
  props : IncompleteProps
deriving DecidableEq

/-- The incomplete_list loop of conflate.py over the rows of the R to L
join: rows with a partner are kept when needs_update holds. -/
def incompleteListOf (j : List (OsmM × Option LocalM)) :
    List IncompleteFeature :=
  j.filterMap fun row =>
    match row.2 with
    | none => none
    | some lm =>
        if needsUpdate lm.feat.ref lm.feat.start_date
            row.1.feat.osm_ref row.1.feat.osm_date then
          some { geometry := row.1.m
                 props := mkIncompleteProps row.1.feat.osm_id
                   lm.feat.ref lm.feat.start_date }
        else none

/-- The incomplete output list (still in metric coordinates). -/
def incompleteList (Rm : List OsmM) (Lm : List LocalM) :
    List IncompleteFeature :=
  incompleteListOf (joinedOsmToLocal Rm Lm)

/-- The local features a flagged incomplete pair involves. -/
def incompleteLocals (Rm : List OsmM) (Lm : List LocalM) : List LocalM :=
  (joinedOsmToLocal Rm Lm).filterMap fun row =>
    match row.2 with
    | none => none
    | some lm =>
        if needsUpdate lm.feat.ref lm.feat.start_date
            row.1.feat.osm_ref row.1.feat.osm_date then some lm
        else none

/-- Local rows of the L to R join whose index_right is null: the
missing_in_osm selection of conflate.py. -/
def missingLocals (Lm : List LocalM) (Rm : List OsmM) : List LocalM :=
  ((joinedLocalToOsm Lm Rm).filter fun row => row.2.isNone).map fun row => row.1

/-- Local rows of the L to R join whose index_right is non-null. -/
def partneredLocals (Lm : List LocalM) (Rm : List OsmM) : List LocalM :=
  ((joinedLocalToOsm Lm Rm).filter fun row => row.2.isSome).map fun row => row.1

/-- Reference rows of the R to L join whose index_right is null: the
extra_in_osm selection of conflate.py. -/
def extraOsm (Rm : List OsmM) (Lm : List LocalM) : List OsmM :=
  ((joinedOsmToLocal Rm Lm).filter fun row => row.2.isNone).map fun row => row.1

/-- An output feature of the missing file: the four attributes renamed
back to the canonical map tags, plus the point geometry. -/
structure MissingFeature where
  ref : Option String
  start_date : Option String
  highway : Option String
  traffic_signals : Option String
  geometry : Pt
deriving DecidableEq

/-- Builds a missing output feature from a local feature and the
geometry to emit: the rename local_ref to ref and so on is the inverse
of the rename done at load time, so each attribute carries over. -/
def missingFeatureOf (geom : Pt) (l : LocalFeature) : MissingFeature :=
  { ref := l.ref
    start_date := l.start_date
    highway := l.highway
    traffic_signals := l.traffic_signals
    geometry := geom }

/-- An output feature of the extra file. -/
structure ExtraFeature where
  osm_id : Int
  ref : Option String
  start_date : Option String
  geometry : Pt
deriving DecidableEq

/-- One written output file of a conflation run. -/
inductive OutFile where
  | missingFile (fs : List MissingFeature)
  | incompleteFile (fs : List IncompleteFeature)
  | extraFile (fs : List ExtraFeature)
deriving DecidableEq

/-- The observable outcome of a run: files written in order, log lines,
and the error that aborted the run, if any. -/
structure RunResult where
  written : List OutFile
  logs : List String
  err : Option String
deriving DecidableEq

/-- All-or-error map, the behaviour of a column-wise to_crs: the frame
is transformed whole, and the first failing coordinate aborts it. -/
def mapE {α β : Type} (f : α → Except String β) :
    List α → Except String (List β)
  | [] => Except.ok []
  | x :: xs =>
      match f x with
      | Except.error e => Except.error e
      | Except.ok y =>
          match mapE f xs with
          | Except.error e => Except.error e
          | Except.ok ys => Except.ok (y :: ys)

/-- local_gdf.to_crs(epsg = 3857): projects every local point into the
metric frame, keeping the feature attributes. -/
def projectAllLocal (fwd : Pt → Except String Pt) (L : List LocalFeature) :
    Except String (List LocalM) :=
  mapE (fun l =>
    match fwd l.pt with
    | Except.error e => Except.error e
    | Except.ok p => Except.ok { feat := l, m := p }) L

/-- osm_gdf.to_crs(epsg = 3857). -/
def projectAllOsm (fwd : Pt → Except String Pt) (R : List OsmFeature) :
    Except String (List OsmM) :=
  mapE (fun r =>
    match fwd r.pt with
    | Except.error e => Except.error e
    | Except.ok p => Except.ok { feat := r, m := p }) R

/-- missing_in_osm.to_crs(epsg = 4326) followed by the column
selection: reprojects the point geometry of every missing row. -/
def invMissing (inv : Pt → Except String Pt) (rows : List LocalM) :
    Except String (List MissingFeature) :=
  mapE (fun lm =>
    match inv lm.m with
    | Except.error e => Except.error e
    | Except.ok g => Except.ok (missingFeatureOf g lm.feat)) rows

/-- incomplete_gdf.to_crs(epsg = 4326). -/
def invIncomplete (inv : Pt → Except String Pt) (fs : List IncompleteFeature) :
    Except String (List IncompleteFeature) :=
  mapE (fun f =>
    match inv f.geometry with
    | Except.error e => Except.error e
    | Except.ok g => Except.ok { f with geometry := g }) fs

/-- extra_in_osm.to_crs(epsg = 4326) with its column selection. -/
def invExtra (inv : Pt → Except String Pt) (rows : List OsmM) :
    Except String (List ExtraFeature) :=
  mapE (fun rm =>
    match inv rm.m with
    | Except.error e => Except.error e
    | Except.ok g =>
        Except.ok { osm_id := rm.feat.osm_id
                    ref := rm.feat.osm_ref
                    start_date := rm.feat.osm_date
                    geometry := g }) rows

/-- The run_conflation orchestrator of conflate.py, from the point
where the local collection is loaded and the reference collection
fetched.  The reprojections fwd (to the metric frame) and inv (back to
the geographic frame) are the injected transform functions; each output
file is appended to written only after its reprojection succeeded,
mirroring the to_crs-then-to_file order of the source. -/
def runConflation (fwd inv : Pt → Except String Pt)
    (L : List LocalFeature) (R : List OsmFeature) : RunResult :=
  if R.isEmpty then
    { written := [], logs := ["No OSM traffic lights found."], err := none }
  else
    match projectAllLocal fwd L with
    | Except.error e => { written := [], logs := [], err := some e }
    | Except.ok Lm =>
      match projectAllOsm fwd R with
      | Except.error e => { written := [], logs := [], err := some e }
      | Except.ok Rm =>
        match invMissing inv (missingLocals Lm Rm) with
        | Except.error e => { written := [], logs := [], err := some e }
        | Except.ok missingFs =>
          let inc := incompleteList Rm Lm
          if inc.isEmpty then
            match invExtra inv (extraOsm Rm Lm) with
            | Except.error e =>
                { written := [OutFile.missingFile missingFs]
                  logs := ["Created 1_missing_in_osm.geojson",
                           "No incomplete data found."]
                  err := some e }
            | Except.ok extraFs =>
                { written := [OutFile.missingFile missingFs,
                              OutFile.extraFile extraFs]
                  logs := ["Created 1_missing_in_osm.geojson",
                           "No incomplete data found.",
                           "Created 3_extra_in_osm.geojson"]
                  err := none }
          else
            match invIncomplete inv inc with
            | Except.error e =>
                { written := [OutFile.missingFile missingFs]
                  logs := ["Created 1_missing_in_osm.geojson"]
                  err := some e }
            | Except.ok incFs =>
              match invExtra inv (extraOsm Rm Lm) with
              | Except.error e =>
                  { written := [OutFile.missingFile missingFs,
                                OutFile.incompleteFile incFs]
                    logs := ["Created 1_missing_in_osm.geojson",
                             "Created 2_incomplete_osm_data.geojson"]
                    err := some e }
              | Except.ok extraFs =>
                  { written := [OutFile.missingFile missingFs,
                                OutFile.incompleteFile incFs,
                                OutFile.extraFile extraFs]
                    logs := ["Created 1_missing_in_osm.geojson",
                             "Created 2_incomplete_osm_data.geojson",
                             "Created 3_extra_in_osm.geojson"]
                    err := none }

/-- An element of the Overpass API response, as consumed by
get_osm_data: the id key may be absent (dict indexing then raises),
tags is an optional dictionary. -/
structure OverpassElement where
  id : Option Int
  lon : ℤ
  lat : ℤ
  tags : List (String × String)
deriving DecidableEq

/-- Python dict.get on the tags dictionary. -/
def tagsGet (tags : List (String × String)) (k : String) : Option String :=
  (tags.find? fun kv => kv.1 == k).map fun kv => kv.2

/-- Builds one reference feature from an Overpass element, as the loop
body of get_osm_data does: element brackets id is a raising dict
access, so an element without id raises KeyError. -/
def elementToFeature (e : OverpassElement) : Except String OsmFeature :=
  match e.id with
  | none => Except.error "KeyError: id"
  | some i =>
      Except.ok { pt := (e.lon, e.lat)
                  osm_id := i
                  osm_ref := tagsGet e.tags "ref"
                  osm_date := tagsGet e.tags "start_date" }

/-- The element loop of get_osm_data: a raising iteration, so the first
element that raises aborts the whole fetch. -/
def getOsmData (elems : List OverpassElement) :
    Except String (List OsmFeature) :=
  mapE elementToFeature elems

end OsmConflation

namespace OsmConflation

/-! Membership characterisations of the left spatial join. -/

theorem mem_sjoinRows_some {α β : Type} (pr : α → β → Bool) (B : List β)
    (a x : α) (b : β) :
    (x, some b) ∈ sjoinRows pr B a ↔ x = a ∧ b ∈ B ∧ pr a b = true := by
  constructor
  · intro h
    unfold sjoinRows at h
    split at h
    · simp at h
    · rw [List.mem_map] at h
      obtain ⟨c, hc, heq⟩ := h
      rw [List.mem_filter] at hc
      simp only [Prod.mk.injEq, Option.some.injEq] at heq
      obtain ⟨h1, h2⟩ := heq
      subst h1; subst h2
      exact ⟨rfl, hc.1, hc.2⟩
  · rintro ⟨rfl, hb, hpr⟩
    unfold sjoinRows
    split
    · next he =>
      rw [List.isEmpty_iff, List.filter_eq_nil_iff] at he
      exact absurd hpr (by simpa using he b hb)
    · exact List.mem_map.mpr ⟨b, List.mem_filter.mpr ⟨hb, hpr⟩, rfl⟩

theorem mem_sjoinRows_none {α β : Type} (pr : α → β → Bool) (B : List β)
    (a x : α) :
    (x, (none : Option β)) ∈ sjoinRows pr B a ↔
      x = a ∧ ∀ b ∈ B, pr a b = false := by
  constructor
  · intro h
    unfold sjoinRows at h
    split at h
    · next he =>
      rw [List.isEmpty_iff, List.filter_eq_nil_iff] at he
      simp only [List.mem_singleton, Prod.mk.injEq] at h
      refine ⟨h.1, fun b hb => ?_⟩
      have := he b hb
      simpa using this
    · rw [List.mem_map] at h
      obtain ⟨c, _, heq⟩ := h
      exact absurd (congrArg Prod.snd heq) (by simp)
  · rintro ⟨rfl, hall⟩
    unfold sjoinRows
    split
    · exact List.mem_singleton.mpr rfl
    · next he =>
      rw [List.isEmpty_iff] at he
      exact absurd (List.filter_eq_nil_iff.mpr fun b hb => by simp [hall b hb]) he

theorem mem_sjoinLeft_some {α β : Type} (A : List α) (B : List β)
    (pr : α → β → Bool) (a : α) (b : β) :
    (a, some b) ∈ sjoinLeft A B pr ↔ a ∈ A ∧ b ∈ B ∧ pr a b = true := by
  induction A with
  | nil => simp [sjoinLeft]
  | cons hd tl ih =>
    simp only [sjoinLeft, List.mem_append, ih, mem_sjoinRows_some, List.mem_cons]
    constructor
    · rintro (⟨rfl, hb, hpr⟩ | ⟨ha, hb, hpr⟩)
      · exact ⟨Or.inl rfl, hb, hpr⟩
      · exact ⟨Or.inr ha, hb, hpr⟩
    · rintro ⟨rfl | ha, hb, hpr⟩
      · exact Or.inl ⟨rfl, hb, hpr⟩
      · exact Or.inr ⟨ha, hb, hpr⟩

theorem mem_sjoinLeft_none {α β : Type} (A : List α) (B : List β)
    (pr : α → β → Bool) (a : α) :
    (a, (none : Option β)) ∈ sjoinLeft A B pr ↔
      a ∈ A ∧ ∀ b ∈ B, pr a b = false := by
  induction A with
  | nil => simp [sjoinLeft]
  | cons hd tl ih =>
    simp only [sjoinLeft, List.mem_append, ih, mem_sjoinRows_none, List.mem_cons]
    constructor
    · rintro (⟨rfl, hall⟩ | ⟨ha, hall⟩)
      · exact ⟨Or.inl rfl, hall⟩
      · exact ⟨Or.inr ha, hall⟩
    · rintro ⟨rfl | ha, hall⟩
      · exact Or.inl ⟨rfl, hall⟩
      · exact Or.inr ⟨ha, hall⟩

theorem fst_of_mem_sjoinRows {α β : Type} (pr : α → β → Bool) (B : List β)
    (a : α) (row : α × Option β) (h : row ∈ sjoinRows pr B a) : row.1 = a := by
  unfold sjoinRows at h
  split at h
  · simp at h
    rw [h]
  · rw [List.mem_map] at h
    obtain ⟨c, _, heq⟩ := h
    rw [← heq]

/-! The two buffer predicates test the same squared distance. -/

theorem sqDist_comm (p q : Pt) : sqDist p q = sqDist q p := by
  unfold sqDist; ring

theorem within_eq_contains (r l : Pt) :
    pointWithinBuffer r l = bufferContainsPoint l r := by
  unfold pointWithinBuffer bufferContainsPoint
  rw [sqDist_comm]

end OsmConflation

namespace OsmConflation

/-! Membership characterisations of the classifier outputs. -/

theorem mem_missingLocals (Lm : List LocalM) (Rm : List OsmM) (lm : LocalM) :
    lm ∈ missingLocals Lm Rm ↔
      lm ∈ Lm ∧ ∀ rm ∈ Rm, bufferContainsPoint lm.m rm.m = false := by
  unfold missingLocals joinedLocalToOsm
  rw [List.mem_map]
  constructor
  · rintro ⟨row, hrow, rfl⟩
    rw [List.mem_filter] at hrow
    obtain ⟨hmem, hnone⟩ := hrow
    have : row.2 = none := Option.isNone_iff_eq_none.mp hnone
    have hrow' : (row.1, (none : Option OsmM)) ∈
        sjoinLeft Lm Rm fun l r => bufferContainsPoint l.m r.m := by
      rw [← this]
      exact hmem
    exact (mem_sjoinLeft_none Lm Rm _ row.1).mp hrow'
  · rintro ⟨hl, hall⟩
    refine ⟨(lm, none), ?_, rfl⟩
    rw [List.mem_filter]
    exact ⟨(mem_sjoinLeft_none Lm Rm _ lm).mpr ⟨hl, hall⟩, rfl⟩

theorem mem_partneredLocals (Lm : List LocalM) (Rm : List OsmM) (lm : LocalM) :
    lm ∈ partneredLocals Lm Rm ↔
      lm ∈ Lm ∧ ∃ rm ∈ Rm, bufferContainsPoint lm.m rm.m = true := by
  unfold partneredLocals joinedLocalToOsm
  rw [List.mem_map]
  constructor
  · rintro ⟨row, hrow, rfl⟩
    rw [List.mem_filter] at hrow
    obtain ⟨hmem, hsome⟩ := hrow
    obtain ⟨rm, hrm⟩ := Option.isSome_iff_exists.mp hsome
    have hmem' : (row.1, some rm) ∈
        sjoinLeft Lm Rm fun l r => bufferContainsPoint l.m r.m := by
      rw [← hrm]
      exact hmem
    have := (mem_sjoinLeft_some Lm Rm _ row.1 rm).mp hmem'
    exact ⟨this.1, rm, this.2.1, this.2.2⟩
  · rintro ⟨hl, rm, hrm, hpr⟩
    refine ⟨(lm, some rm), ?_, rfl⟩
    rw [List.mem_filter]
    exact ⟨(mem_sjoinLeft_some Lm Rm _ lm rm).mpr ⟨hl, hrm, hpr⟩, rfl⟩

theorem mem_extraOsm (Rm : List OsmM) (Lm : List LocalM) (rm : OsmM) :
    rm ∈ extraOsm Rm Lm ↔
      rm ∈ Rm ∧ ∀ lm ∈ Lm, pointWithinBuffer rm.m lm.m = false := by
  unfold extraOsm joinedOsmToLocal
  rw [List.mem_map]
  constructor
  · rintro ⟨row, hrow, rfl⟩
    rw [List.mem_filter] at hrow
    obtain ⟨hmem, hnone⟩ := hrow
    have : row.2 = none := Option.isNone_iff_eq_none.mp hnone
    have hrow' : (row.1, (none : Option LocalM)) ∈
        sjoinLeft Rm Lm fun r l => pointWithinBuffer r.m l.m := by
      rw [← this]
      exact hmem
    exact (mem_sjoinLeft_none Rm Lm _ row.1).mp hrow'
  · rintro ⟨hr, hall⟩
    refine ⟨(rm, none), ?_, rfl⟩
    rw [List.mem_filter]
    exact ⟨(mem_sjoinLeft_none Rm Lm _ rm).mpr ⟨hr, hall⟩, rfl⟩

theorem mem_incompleteList (Rm : List OsmM) (Lm : List LocalM)
    (f : IncompleteFeature) :
    f ∈ incompleteList Rm Lm ↔
      ∃ rm ∈ Rm, ∃ lm ∈ Lm,
        pointWithinBuffer rm.m lm.m = true ∧
        needsUpdate lm.feat.ref lm.feat.start_date rm.feat.osm_ref
          rm.feat.osm_date = true ∧
        f = { geometry := rm.m
              props := mkIncompleteProps rm.feat.osm_id lm.feat.ref
                lm.feat.start_date } := by
  unfold incompleteList incompleteListOf
  rw [List.mem_filterMap]
  constructor
  · rintro ⟨⟨r1, r2⟩, hrow, hf⟩
    rcases r2 with _ | lm
    · simp at hf
    · simp only at hf
      split at hf
      · next hnu =>
        have hmem : ((r1, some lm) : OsmM × Option LocalM) ∈
            joinedOsmToLocal Rm Lm := hrow
        unfold joinedOsmToLocal at hmem
        have := (mem_sjoinLeft_some Rm Lm _ r1 lm).mp hmem
        refine ⟨r1, this.1, lm, this.2.1, this.2.2, hnu, ?_⟩
        exact (Option.some.injEq .. ▸ hf).symm
      · simp at hf
  · rintro ⟨rm, hr, lm, hl, hpr, hnu, rfl⟩
    refine ⟨(rm, some lm), ?_, ?_⟩
    · exact (mem_sjoinLeft_some Rm Lm _ rm lm).mpr ⟨hr, hl, hpr⟩
    · simp only [hnu, if_pos]

theorem mem_incompleteLocals (Rm : List OsmM) (Lm : List LocalM)
    (lm : LocalM) :
    lm ∈ incompleteLocals Rm Lm ↔
      ∃ rm ∈ Rm, lm ∈ Lm ∧
        pointWithinBuffer rm.m lm.m = true ∧
        needsUpdate lm.feat.ref lm.feat.start_date rm.feat.osm_ref
          rm.feat.osm_date = true := by
  unfold incompleteLocals
  rw [List.mem_filterMap]
  constructor
  · rintro ⟨⟨r1, r2⟩, hrow, hf⟩
    rcases r2 with _ | lm'
    · simp at hf
    · simp only at hf
      split at hf
      · next hnu =>
        have hlm : lm' = lm := Option.some.injEq .. ▸ hf
        subst hlm
        have hmem : ((r1, some lm') : OsmM × Option LocalM) ∈
            joinedOsmToLocal Rm Lm := hrow
        unfold joinedOsmToLocal at hmem
        have := (mem_sjoinLeft_some Rm Lm _ r1 lm').mp hmem
        exact ⟨r1, this.1, this.2.1, this.2.2, hnu⟩
      · simp at hf
  · rintro ⟨rm, hr, hl, hpr, hnu⟩
    refine ⟨(rm, some lm), ?_, ?_⟩
    · exact (mem_sjoinLeft_some Rm Lm _ rm lm).mpr ⟨hr, hl, hpr⟩
    · simp only [hnu, if_pos]

end OsmConflation

namespace OsmConflation

/-- Scenario A data of the spec, with coordinates scaled to integers:
the local feature carries ref 101 and start_date 2020-01-01, the
reference feature at the same point carries osm_id 55 and neither
tag. -/
def scenarioLocal : LocalM :=
  { feat := { pt := (-38500, -3730)
              ref := some "101"
              start_date := some "2020-01-01"
              highway := some "traffic_signals"
              traffic_signals := some "signal" }
    m := (-38500, -3730) }

/-- Scenario A reference feature. -/
def scenarioOsm : OsmM :=
  { feat := { pt := (-38500, -3730)
              osm_id := 55
              osm_ref := none
              osm_date := none }
    m := (-38500, -3730) }

/-- C1: a pair of the R to L join is emitted to the Incomplete output
iff the reference point lies in the tolerance region of the local
feature and, for ref or start_date, the local side has a non-empty
trimmed value while the reference side is null, trim-empty, or the nan
sentinel; the emitted properties are exactly the reference osm_id, the
stringified local ref, and the local start_date (empty string when
absent).  The second conjunct instantiates Scenario A of the spec:
the output row is ref 101, check_date 2020-01-01, osm_id 55. -/
theorem incomplete_pairs_spec :
    (∀ (Rm : List OsmM) (Lm : List LocalM) (f : IncompleteFeature),
        f ∈ incompleteList Rm Lm ↔
          ∃ rm ∈ Rm, ∃ lm ∈ Lm,
            pointWithinBuffer rm.m lm.m = true ∧
            needsUpdate lm.feat.ref lm.feat.start_date rm.feat.osm_ref
              rm.feat.osm_date = true ∧
            f = { geometry := rm.m
                  props := mkIncompleteProps rm.feat.osm_id lm.feat.ref
                    lm.feat.start_date }) ∧
    incompleteList [scenarioOsm] [scenarioLocal] =
      [{ geometry := (-38500, -3730)
         props := { osm_id := 55, ref := "101", check_date := "2020-01-01" } }] :=
  ⟨mem_incompleteList, by decide⟩

/-- A local feature falls in the Missing class when it appears in the
missing_in_osm selection. -/
def isMissingLocal (Lm : List LocalM) (Rm : List OsmM) (lm : LocalM) : Prop :=
  lm ∈ missingLocals Lm Rm

/-- A local feature is matched-and-incomplete when some flagged pair of
the R to L join involves it. -/
def isIncompleteLocal (Rm : List OsmM) (Lm : List LocalM) (lm : LocalM) : Prop :=
  lm ∈ incompleteLocals Rm Lm

/-- A local feature is matched-and-complete when it has a join partner
and no flagged pair involves it. -/
def isCompleteLocal (Lm : List LocalM) (Rm : List OsmM) (lm : LocalM) : Prop :=
  lm ∈ partneredLocals Lm Rm ∧ lm ∉ incompleteLocals Rm Lm

theorem not_exists_contains {Rm : List OsmM} {lm : LocalM}
    (h : ¬ ∃ rm ∈ Rm, bufferContainsPoint lm.m rm.m = true) :
    ∀ rm ∈ Rm, bufferContainsPoint lm.m rm.m = false := by
  intro rm hrm
  cases hcb : bufferContainsPoint lm.m rm.m
  · rfl
  · exact absurd ⟨rm, hrm, hcb⟩ h

/-- C2: on a non-empty reference collection, every local feature falls
in exactly one of the classes Missing, matched-and-complete,
matched-and-incomplete, and the Missing set together with the locals
partnered in the L to R join covers exactly the local collection. -/
theorem local_partition_spec :
    ∀ (Lm : List LocalM) (Rm : List OsmM), Rm ≠ [] →
      (∀ lm ∈ Lm,
        (isMissingLocal Lm Rm lm ∧ ¬ isCompleteLocal Lm Rm lm ∧
            ¬ isIncompleteLocal Rm Lm lm) ∨
        (¬ isMissingLocal Lm Rm lm ∧ isCompleteLocal Lm Rm lm ∧
            ¬ isIncompleteLocal Rm Lm lm) ∨
        (¬ isMissingLocal Lm Rm lm ∧ ¬ isCompleteLocal Lm Rm lm ∧
            isIncompleteLocal Rm Lm lm)) ∧
      (∀ lm, lm ∈ Lm ↔
        (lm ∈ missingLocals Lm Rm ∨ lm ∈ partneredLocals Lm Rm)) := by
  intro Lm Rm _
  constructor
  · intro lm hl
    by_cases hmatch : ∃ rm ∈ Rm, bufferContainsPoint lm.m rm.m = true
    · have hnmiss : ¬ isMissingLocal Lm Rm lm := by
        intro hmiss
        obtain ⟨_, hall⟩ := (mem_missingLocals Lm Rm lm).mp hmiss
        obtain ⟨rm, hrm, hpr⟩ := hmatch
        rw [hall rm hrm] at hpr
        exact absurd hpr (by simp)
      by_cases hinc : lm ∈ incompleteLocals Rm Lm
      · refine Or.inr (Or.inr ⟨hnmiss, ?_, hinc⟩)
        rintro ⟨_, hninc⟩
        exact hninc hinc
      · refine Or.inr (Or.inl ⟨hnmiss, ⟨?_, hinc⟩, hinc⟩)
        exact (mem_partneredLocals Lm Rm lm).mpr ⟨hl, hmatch⟩
    · have hmiss : lm ∈ missingLocals Lm Rm :=
        (mem_missingLocals Lm Rm lm).mpr ⟨hl, not_exists_contains hmatch⟩
      refine Or.inl ⟨hmiss, ?_, ?_⟩
      · rintro ⟨hpart, _⟩
        obtain ⟨_, hex⟩ := (mem_partneredLocals Lm Rm lm).mp hpart
        exact hmatch hex
      · intro hinc
        obtain ⟨rm, hrm, _, hpw, _⟩ := (mem_incompleteLocals Rm Lm lm).mp hinc
        rw [within_eq_contains] at hpw
        exact hmatch ⟨rm, hrm, hpw⟩
  · intro lm
    constructor
    · intro hl
      by_cases hmatch : ∃ rm ∈ Rm, bufferContainsPoint lm.m rm.m = true
      · exact Or.inr ((mem_partneredLocals Lm Rm lm).mpr ⟨hl, hmatch⟩)
      · exact Or.inl
          ((mem_missingLocals Lm Rm lm).mpr ⟨hl, not_exists_contains hmatch⟩)
    · rintro (hmiss | hpart)
      · exact ((mem_missingLocals Lm Rm lm).mp hmiss).1
      · exact ((mem_partneredLocals Lm Rm lm).mp hpart).1

/-- Witness for C2 at a concrete one-element run. -/
theorem local_partition_witness :
    scenarioLocal ∈ [scenarioLocal] ↔
      (scenarioLocal ∈ missingLocals [scenarioLocal] [scenarioOsm] ∨
       scenarioLocal ∈ partneredLocals [scenarioLocal] [scenarioOsm]) :=
  (local_partition_spec [scenarioLocal] [scenarioOsm] (by decide)).2 scenarioLocal

end OsmConflation

namespace OsmConflation

/-- A reference feature sitting inside two local tolerance regions. -/
def cexOsm : OsmM :=
  { feat := { pt := (0, 0), osm_id := 1, osm_ref := none, osm_date := none }
    m := (0, 0) }

/-- First local feature of the double-match example. -/
def cexLocalA : LocalM :=
  { feat := { pt := (0, 0), ref := some "A", start_date := none
              highway := none, traffic_signals := none }
    m := (0, 0) }

/-- Second local feature of the double-match example, 10 m away. -/
def cexLocalB : LocalM :=
  { feat := { pt := (10, 0), ref := some "B", start_date := none
              highway := none, traffic_signals := none }
    m := (10, 0) }

/-- C3 counterexample: a single reference feature whose point lies in
the tolerance regions of two local features acquires two join links in
the R to L join, so the at-most-one-link claim fails. -/
theorem sjoin_links_cex :
    ¬ ((joinedOsmToLocal [cexOsm] [cexLocalA, cexLocalB]).countP
        (fun row => row.2.isSome) ≤ 1) := by decide

theorem countP_sjoinRows_self {α β : Type} [DecidableEq α]
    (pr : α → β → Bool) (B : List β) (a : α) :
    ((sjoinRows pr B a).countP fun row => decide (row.1 = a) && row.2.isSome) =
      B.countP (pr a) := by
  unfold sjoinRows
  split
  · next he =>
    rw [List.isEmpty_iff] at he
    simp [List.countP_eq_length_filter, he]
  · rw [List.countP_map]
    simp [Function.comp_def, List.countP_eq_length_filter]

theorem countP_sjoinRows_other {α β : Type} [DecidableEq α]
    (pr : α → β → Bool) (B : List β) (a x : α) (hne : x ≠ a) :
    ((sjoinRows pr B a).countP fun row => decide (row.1 = x) && row.2.isSome) =
      0 := by
  rw [List.countP_eq_zero]
  intro row hrow
  have hfst := fst_of_mem_sjoinRows pr B a row hrow
  simp [hfst, Ne.symm hne]

theorem countP_links_zero_of_not_mem (Rm : List OsmM) (Lm : List LocalM)
    (rm : OsmM) (h : rm ∉ Rm) :
    ((joinedOsmToLocal Rm Lm).countP
        fun row => decide (row.1 = rm) && row.2.isSome) = 0 := by
  induction Rm with
  | nil => simp [joinedOsmToLocal, sjoinLeft]
  | cons r rest ih =>
    rw [List.mem_cons] at h
    push_neg at h
    have : joinedOsmToLocal (r :: rest) Lm =
        sjoinRows (fun r l => pointWithinBuffer r.m l.m) Lm r ++
          joinedOsmToLocal rest Lm := rfl
    rw [this, List.countP_append,
      countP_sjoinRows_other _ Lm r rm h.1, ih h.2]

/-- C3 amended: the join emits one link per in-tolerance partner, so a
driving feature occurring once in the driving frame acquires exactly as
many links as there are local features whose tolerance region holds its
point (and a single null row when there are none). -/
theorem sjoin_links_per_driving_feature :
    ∀ (Rm : List OsmM) (Lm : List LocalM) (rm : OsmM),
      Rm.count rm = 1 →
      ((joinedOsmToLocal Rm Lm).countP
          fun row => decide (row.1 = rm) && row.2.isSome) =
        Lm.countP (fun lm => pointWithinBuffer rm.m lm.m) := by
  intro Rm Lm rm
  induction Rm with
  | nil => intro h; simp at h
  | cons r rest ih =>
    intro h
    rw [List.count_cons] at h
    have hsplit : joinedOsmToLocal (r :: rest) Lm =
        sjoinRows (fun r l => pointWithinBuffer r.m l.m) Lm r ++
          joinedOsmToLocal rest Lm := rfl
    by_cases heq : rm = r
    · subst heq
      simp only [beq_self_eq_true, if_true] at h
      have hz : rest.count rm = 0 := by omega
      have hnot : rm ∉ rest := List.count_eq_zero.mp hz
      rw [hsplit, List.countP_append, countP_sjoinRows_self,
        countP_links_zero_of_not_mem rest Lm rm hnot]
      simp
    · have hbeq : (r == rm) = false := beq_eq_false_iff_ne.mpr (Ne.symm heq)
      rw [hbeq] at h
      simp only [Bool.false_eq_true, if_false] at h
      rw [hsplit, List.countP_append,
        countP_sjoinRows_other _ Lm r rm heq, ih (by omega)]
      simp

/-- Witness for the amended C3 statement at the double-match example. -/
theorem sjoin_links_witness :
    ([cexOsm] : List OsmM).count cexOsm = 1 ∧
    ((joinedOsmToLocal [cexOsm] [cexLocalA, cexLocalB]).countP
        fun row => decide (row.1 = cexOsm) && row.2.isSome) =
      [cexLocalA, cexLocalB].countP
        (fun lm => pointWithinBuffer cexOsm.m lm.m) :=
  ⟨by decide,
   sjoin_links_per_driving_feature [cexOsm] [cexLocalA, cexLocalB] cexOsm
     (by decide)⟩

end OsmConflation

namespace OsmConflation

/-- Wraps a total coordinate transform as an always-succeeding
reprojection. -/
def pureProj (f : Pt → Pt) : Pt → Except String Pt :=
  fun p => Except.ok (f p)

theorem mapE_pure_ok {α β : Type} (g : α → β) (xs : List α) :
    mapE (fun x => Except.ok (g x)) xs = Except.ok (xs.map g) := by
  induction xs with
  | nil => rfl
  | cons x xs ih => simp [mapE, ih]

theorem projectAllLocal_pure (f : Pt → Pt) (L : List LocalFeature) :
    projectAllLocal (pureProj f) L =
      Except.ok (L.map fun l => { feat := l, m := f l.pt }) :=
  mapE_pure_ok _ L

theorem projectAllOsm_pure (f : Pt → Pt) (R : List OsmFeature) :
    projectAllOsm (pureProj f) R =
      Except.ok (R.map fun r => { feat := r, m := f r.pt }) :=
  mapE_pure_ok _ R

theorem invMissing_pure (g : Pt → Pt) (rows : List LocalM) :
    invMissing (pureProj g) rows =
      Except.ok (rows.map fun lm => missingFeatureOf (g lm.m) lm.feat) :=
  mapE_pure_ok _ rows

theorem invIncomplete_pure (g : Pt → Pt) (fs : List IncompleteFeature) :
    invIncomplete (pureProj g) fs =
      Except.ok (fs.map fun f => { f with geometry := g f.geometry }) :=
  mapE_pure_ok _ fs

theorem invExtra_pure (g : Pt → Pt) (rows : List OsmM) :
    invExtra (pureProj g) rows =
      Except.ok (rows.map fun rm =>
        { osm_id := rm.feat.osm_id
          ref := rm.feat.osm_ref
          start_date := rm.feat.osm_date
          geometry := g rm.m }) :=
  mapE_pure_ok _ rows

/-- C4: a local feature whose partner slot in the L to R join is null
appears in the written Missing file, with the original point geometry
restored by the inverse reprojection and the four attributes carried
over one-to-one. -/
theorem missing_output_spec :
    ∀ (fwd inv : Pt → Pt) (L : List LocalFeature) (R : List OsmFeature)
      (l : LocalFeature),
      l ∈ L → R ≠ [] →
      (∀ r ∈ R, bufferContainsPoint (fwd l.pt) (fwd r.pt) = false) →
      inv (fwd l.pt) = l.pt →
      ∃ ms, (runConflation (pureProj fwd) (pureProj inv) L R).written.head? =
          some (OutFile.missingFile ms) ∧
        missingFeatureOf l.pt l ∈ ms := by
  intro fwd inv L R l hl hR hfar hrt
  have hRE : R.isEmpty = false := by
    cases R
    · exact absurd rfl hR
    · rfl
  refine ⟨(missingLocals (L.map fun x => { feat := x, m := fwd x.pt })
      (R.map fun r => { feat := r, m := fwd r.pt })).map
        (fun lm => missingFeatureOf (inv lm.m) lm.feat), ?_, ?_⟩
  · by_cases hinc : (incompleteList (R.map fun r => { feat := r, m := fwd r.pt })
        (L.map fun x => { feat := x, m := fwd x.pt })).isEmpty
    · simp [runConflation, hRE, projectAllLocal_pure, projectAllOsm_pure,
        invMissing_pure, invExtra_pure, hinc]
    · simp [runConflation, hRE, projectAllLocal_pure, projectAllOsm_pure,
        invMissing_pure, invIncomplete_pure, invExtra_pure, hinc]
  · apply List.mem_map.mpr
    refine ⟨{ feat := l, m := fwd l.pt }, ?_, ?_⟩
    · rw [mem_missingLocals]
      constructor
      · exact List.mem_map.mpr ⟨l, hl, rfl⟩
      · intro rm hrm
        obtain ⟨r, hr, rfl⟩ := List.mem_map.mp hrm
        exact hfar r hr
    · show missingFeatureOf (inv (fwd l.pt)) l = missingFeatureOf l.pt l
      rw [hrt]

/-- Identity coordinate transform, for the concrete runs. -/
def idPt : Pt → Pt := fun p => p

/-- Local feature of the far-apart example. -/
def c4Local : LocalFeature :=
  { pt := (0, 0), ref := some "9", start_date := none
    highway := none, traffic_signals := none }

/-- Reference feature of the far-apart example, 1000 m away. -/
def c4Osm : OsmFeature :=
  { pt := (1000, 0), osm_id := 7, osm_ref := none, osm_date := none }

/-- Witness for C4: with no reference feature within 65 m, the local
feature appears in the Missing file with its original attributes. -/
theorem missing_output_witness :
    c4Local ∈ [c4Local] ∧ ([c4Osm] : List OsmFeature) ≠ [] ∧
    (∀ r ∈ [c4Osm],
      bufferContainsPoint (idPt c4Local.pt) (idPt r.pt) = false) ∧
    idPt (idPt c4Local.pt) = c4Local.pt ∧
    ∃ ms, (runConflation (pureProj idPt) (pureProj idPt)
        [c4Local] [c4Osm]).written.head? = some (OutFile.missingFile ms) ∧
      missingFeatureOf c4Local.pt c4Local ∈ ms :=
  ⟨by decide, by decide, by decide, rfl,
   missing_output_spec idPt idPt [c4Local] [c4Osm] c4Local (by decide)
     (by decide) (by decide) rfl⟩

/-- C5: an empty reference collection short-circuits the run with a
logged warning, no output file written, and no error raised. -/
theorem empty_reference_spec :
    ∀ (fwd inv : Pt → Except String Pt) (L : List LocalFeature),
      runConflation fwd inv L [] =
        { written := []
          logs := ["No OSM traffic lights found."]
          err := none } :=
  fun _ _ _ => rfl

end OsmConflation

namespace OsmConflation

/-- Boolean success test on a fallible computation. -/
def isOkE {α : Type} : Except String α → Bool
  | Except.ok _ => true
  | Except.error _ => false

/-- Forward projection that always succeeds, used by the late-failure
example. -/
def c6Fwd : Pt → Except String Pt := fun p => Except.ok p

/-- Inverse projection that fails exactly on the metric point of the
far-away reference feature, so the Extra-output reprojection raises
after the Missing file is already written. -/
def c6Inv : Pt → Except String Pt :=
  fun p => if p = (1000, 0) then Except.error "ProjectionError"
           else Except.ok p

/-- C6 counterexample: a projection failure in the Extra-output
reprojection aborts the run after the Missing file was written, so a
classification output file exists although the run raised. -/
theorem projection_late_failure_cex :
    (runConflation c6Fwd c6Inv [c4Local] [c4Osm]).err = some "ProjectionError" ∧
    (runConflation c6Fwd c6Inv [c4Local] [c4Osm]).written =
      [OutFile.missingFile [missingFeatureOf (0, 0) c4Local]] := by decide

/-- C6 amended: a coordinate transform failure occurring before the
first file write, that is in the input reprojections or in the
Missing-output reprojection, aborts the run with no output file
written; later failures keep the files already written. -/
theorem projection_abort_spec :
    ∀ (fwd inv : Pt → Except String Pt) (L : List LocalFeature)
      (R : List OsmFeature), R ≠ [] →
      (isOkE (projectAllLocal fwd L) = false ∨
       (∃ Lm, projectAllLocal fwd L = Except.ok Lm ∧
          isOkE (projectAllOsm fwd R) = false) ∨
       (∃ Lm Rm, projectAllLocal fwd L = Except.ok Lm ∧
          projectAllOsm fwd R = Except.ok Rm ∧
          isOkE (invMissing inv (missingLocals Lm Rm)) = false)) →
      (runConflation fwd inv L R).written = [] ∧
      (runConflation fwd inv L R).err.isSome = true := by
  intro fwd inv L R hR hcase
  have hRE : R.isEmpty = false := by
    cases R
    · exact absurd rfl hR
    · rfl
  rcases hcase with h1 | ⟨Lm, hLm, h2⟩ | ⟨Lm, Rm, hLm, hRm, h3⟩
  · rcases hfail : projectAllLocal fwd L with e | Lm
    · simp [runConflation, hRE, hfail]
    · rw [hfail] at h1
      simp [isOkE] at h1
  · rcases hfail : projectAllOsm fwd R with e | Rm
    · simp [runConflation, hRE, hLm, hfail]
    · rw [hfail] at h2
      simp [isOkE] at h2
  · rcases hfail : invMissing inv (missingLocals Lm Rm) with e | ms
    · simp [runConflation, hRE, hLm, hRm, hfail]
    · rw [hfail] at h3
      simp [isOkE] at h3

/-- Forward projection that always fails. -/
def c6FwdBad : Pt → Except String Pt := fun _ => Except.error "ProjectionError"

/-- Witness for the amended C6 statement: a failing input reprojection
leaves nothing written. -/
theorem projection_abort_witness :
    (runConflation c6FwdBad c6Inv [c4Local] [c4Osm]).written = [] ∧
    (runConflation c6FwdBad c6Inv [c4Local] [c4Osm]).err.isSome = true :=
  projection_abort_spec c6FwdBad c6Inv [c4Local] [c4Osm] (by decide)
    (Or.inl (by decide))

/-- Overpass element with no id key. -/
def e8NoId : OverpassElement := { id := none, lon := 0, lat := 0, tags := [] }

/-- Well-formed Overpass element. -/
def e8Good : OverpassElement :=
  { id := some 3, lon := 1, lat := 1, tags := [("ref", "X")] }

/-- C8 counterexample: an element without the id key makes the whole
fetch raise KeyError; the later well-formed element is not returned, no
skip count is produced, the run does not continue. -/
theorem osm_id_missing_cex :
    getOsmData [e8NoId, e8Good] = Except.error "KeyError: id" := rfl

/-- C8 amended: a reference element lacking the id field aborts the
fetch with an error instead of being skipped. -/
theorem osm_id_missing_aborts :
    ∀ (elems : List OverpassElement) (e : OverpassElement),
      e ∈ elems → e.id = none →
      ∃ msg, getOsmData elems = Except.error msg := by
  intro elems e hmem hid
  induction elems with
  | nil => simp at hmem
  | cons x xs ih =>
    rw [List.mem_cons] at hmem
    rcases hx : elementToFeature x with e' | y
    · exact ⟨e', by simp [getOsmData, mapE, hx]⟩
    · rcases hmem with rfl | hmem
      · unfold elementToFeature at hx
        rw [hid] at hx
        simp at hx
      · obtain ⟨msg, hmsg⟩ := ih hmem
        refine ⟨msg, ?_⟩
        unfold getOsmData at hmsg ⊢
        simp [mapE, hx, hmsg]

/-- Witness for the amended C8 statement. -/
theorem osm_id_missing_witness :
    e8NoId ∈ [e8NoId, e8Good] ∧ e8NoId.id = none ∧
    ∃ msg, getOsmData [e8NoId, e8Good] = Except.error msg :=
  ⟨by decide, rfl,
   osm_id_missing_aborts [e8NoId, e8Good] e8NoId (by decide) rfl⟩

/-- C9: the two join passes record a link for exactly the same pairs,
because within and contains both test membership of the reference point
in the interior of the same buffered geometry; a reference point at
exactly the radius distance is matched by neither pass. -/
theorem join_passes_agree_spec :
    ∀ (Rm : List OsmM) (Lm : List LocalM) (rm : OsmM) (lm : LocalM),
      ((rm, some lm) ∈ joinedOsmToLocal Rm Lm ↔
        (lm, some rm) ∈ joinedLocalToOsm Lm Rm) ∧
      (sqDist rm.m lm.m = BUFFER_METERS * BUFFER_METERS →
        (rm, some lm) ∉ joinedOsmToLocal Rm Lm ∧
        (lm, some rm) ∉ joinedLocalToOsm Lm Rm) := by
  intro Rm Lm rm lm
  constructor
  · constructor
    · intro h
      have hs := (mem_sjoinLeft_some Rm Lm _ rm lm).mp h
      refine (mem_sjoinLeft_some Lm Rm _ lm rm).mpr ⟨hs.2.1, hs.1, ?_⟩
      show bufferContainsPoint lm.m rm.m = true
      rw [← within_eq_contains]
      exact hs.2.2
    · intro h
      have hs := (mem_sjoinLeft_some Lm Rm _ lm rm).mp h
      refine (mem_sjoinLeft_some Rm Lm _ rm lm).mpr ⟨hs.2.1, hs.1, ?_⟩
      show pointWithinBuffer rm.m lm.m = true
      rw [within_eq_contains]
      exact hs.2.2
  · intro hbd
    constructor
    · intro hmem
      have hs := (mem_sjoinLeft_some Rm Lm _ rm lm).mp hmem
      have hw : pointWithinBuffer rm.m lm.m = true := hs.2.2
      unfold pointWithinBuffer at hw
      rw [decide_eq_true_eq, hbd] at hw
      exact lt_irrefl _ hw
    · intro hmem
      have hs := (mem_sjoinLeft_some Lm Rm _ lm rm).mp hmem
      have hw : bufferContainsPoint lm.m rm.m = true := hs.2.2
      unfold bufferContainsPoint at hw
      rw [decide_eq_true_eq, sqDist_comm, hbd] at hw
      exact lt_irrefl _ hw

/-- Reference feature of the boundary example. -/
def bdOsm : OsmM :=
  { feat := { pt := (0, 0), osm_id := 2, osm_ref := none, osm_date := none }
    m := (0, 0) }

/-- Local feature of the boundary example, exactly 65 m away. -/
def bdLocal : LocalM :=
  { feat := { pt := (65, 0), ref := none, start_date := none
              highway := none, traffic_signals := none }
    m := (65, 0) }

/-- Witness for C9 at the exact-radius pair. -/
theorem join_passes_agree_witness :
    sqDist bdOsm.m bdLocal.m = BUFFER_METERS * BUFFER_METERS ∧
    ((bdOsm, some bdLocal) ∉ joinedOsmToLocal [bdOsm] [bdLocal] ∧
     (bdLocal, some bdOsm) ∉ joinedLocalToOsm [bdLocal] [bdOsm]) :=
  ⟨by decide,
   (join_passes_agree_spec [bdOsm] [bdLocal] bdOsm bdLocal).2 (by decide)⟩

end OsmConflation

namespace OsmConflation

/-- Splits a character list at slash characters, the separator of the
day/month/year format. -/
def splitOnSlash : List Char → List (List Char)
  | [] => [[]]
  | c :: cs =>
      let rest := splitOnSlash cs
      if c = '/' then [] :: rest
      else
        match rest with
        | [] => [[c]]
        | h :: t => (c :: h) :: t

/-- Non-empty run of decimal digits. -/
def allDigits (cs : List Char) : Bool :=
  !cs.isEmpty && cs.all Char.isDigit

/-- Numeric value of a digit run. -/
def natOfDigits : List Char → Nat → Nat
  | [], acc => acc
  | c :: cs, acc => natOfDigits cs (acc * 10 + (c.toNat - 48))

/-- Gregorian leap-year rule used by the datetime validity check. -/
def isLeap (y : Nat) : Bool :=
  (y % 4 == 0 && y % 100 != 0) || y % 400 == 0

/-- Day count of a month, for the datetime validity check. -/
def daysInMonth (y m : Nat) : Nat :=
  if m == 2 then (if isLeap y then 29 else 28)
  else if m == 4 || m == 6 || m == 9 || m == 11 then 30
  else 31

/-- datetime.strptime with the day/month/Y format: the day matches one
or two digits valued 1 to 31, the month one or two digits valued 1 to
12, the year exactly four digits at least 1, separated by literal
slashes with nothing left over, and the triple must form a valid
calendar date; otherwise ValueError is raised. -/
def strptimeDMY (s : String) : Except String (Nat × Nat × Nat) :=
  match splitOnSlash s.data with
  | [ds, ms, ys] =>
      if allDigits ds && decide (ds.length ≤ 2) &&
         allDigits ms && decide (ms.length ≤ 2) &&
         allDigits ys && decide (ys.length = 4) then
        let d := natOfDigits ds 0
        let m := natOfDigits ms 0
        let y := natOfDigits ys 0
        if decide (1 ≤ d) && decide (1 ≤ m) && decide (m ≤ 12) &&
           decide (1 ≤ y) && decide (d ≤ daysInMonth y m) then
          Except.ok (d, m, y)
        else Except.error "ValueError"
      else Except.error "ValueError"
  | _ => Except.error "ValueError"

/-- Zero-padded two-digit rendering, strftime style. -/
def pad2 (n : Nat) : String :=
  if n < 10 then "0" ++ toString n else toString n

/-- strftime with the Y-m-d format. -/
def formatYMD (y m d : Nat) : String :=
  toString y ++ "-" ++ pad2 m ++ "-" ++ pad2 d

/-- format_date of clean.py: falsy input (null or the empty string)
gives null; a ValueError from strptime is caught and the input string
returned unchanged; a parsed date is re-expressed year-month-day. -/
def format_date (dateStr : Option String) : Option String :=
  match dateStr with
  | none => none
  | some s =>
      if s = "" then none
      else
        match strptimeDMY s with
        | Except.ok (d, m, y) => some (formatYMD y m d)
        | Except.error _ => some s

/-- C10: format_date returns null on null or empty input, returns any
unparsable non-empty string unchanged instead of propagating the parse
error, and re-expresses a parsable day/month/year string as
year-month-day. -/
theorem format_date_spec :
    format_date none = none ∧
    format_date (some "") = none ∧
    (∀ s, s ≠ "" → (∃ e, strptimeDMY s = Except.error e) →
      format_date (some s) = some s) ∧
    (∀ s d m y, strptimeDMY s = Except.ok (d, m, y) →
      format_date (some s) = some (formatYMD y m d)) := by
  refine ⟨rfl, rfl, ?_, ?_⟩
  · rintro s hs ⟨e, he⟩
    show (if s = "" then none
          else match strptimeDMY s with
               | Except.ok (d, m, y) => some (formatYMD y m d)
               | Except.error _ => some s) = some s
    rw [if_neg hs, he]
  · intro s d m y h
    have hs : s ≠ "" := by
      intro heq
      subst heq
      rw [show strptimeDMY "" = Except.error "ValueError" from rfl] at h
      exact Except.noConfusion h
    show (if s = "" then none
          else match strptimeDMY s with
               | Except.ok (d, m, y) => some (formatYMD y m d)
               | Except.error _ => some s) = some (formatYMD y m d)
    rw [if_neg hs, h]

/-- Witness for C10: an unparsable string passes through unchanged and
a parsable one is reformatted. -/
theorem format_date_witness :
    strptimeDMY "not a date" = Except.error "ValueError" ∧
    format_date (some "not a date") = some "not a date" ∧
    strptimeDMY "05/06/2020" = Except.ok (5, 6, 2020) ∧
    format_date (some "05/06/2020") = some "2020-06-05" :=
  ⟨rfl,
   format_date_spec.2.2.1 "not a date" (by decide) ⟨"ValueError", rfl⟩,
   rfl,
   format_date_spec.2.2.2 "05/06/2020" 5 6 2020 rfl⟩

end OsmConflation

namespace OsmConflation

/-- Earth radius of the EPSG 3857 spherical Mercator frame, metres. -/
noncomputable def EARTH_RADIUS : ℝ := 6378137

/-- Forward spherical Mercator transform applied by
to_crs(epsg = 3857) on (longitude, latitude) degree coordinates. -/
noncomputable def mercatorFwd (p : ℝ × ℝ) : ℝ × ℝ :=
  (EARTH_RADIUS * (p.1 * Real.pi / 180),
   EARTH_RADIUS * Real.log (Real.tan (Real.pi / 4 + p.2 * Real.pi / 180 / 2)))

/-- Inverse spherical Mercator transform applied by
to_crs(epsg = 4326) on metric coordinates. -/
noncomputable def mercatorInv (q : ℝ × ℝ) : ℝ × ℝ :=
  (q.1 / EARTH_RADIUS / Real.pi * 180,
   (2 * Real.arctan (Real.exp (q.2 / EARTH_RADIUS)) - Real.pi / 2) /
     Real.pi * 180)

/-- to_crs on a whole feature collection: the coordinate transform is
applied to every geometry; attributes are untouched and the order is
preserved. -/
def reprojectColl {α : Type} (T : ℝ × ℝ → ℝ × ℝ)
    (fs : List ((ℝ × ℝ) × α)) : List ((ℝ × ℝ) × α) :=
  fs.map fun f => (T f.1, f.2)

theorem mercator_roundtrip_point (p : ℝ × ℝ)
    (h1 : -90 < p.2) (h2 : p.2 < 90) :
    mercatorInv (mercatorFwd p) = p := by
  obtain ⟨lon, lat⟩ := p
  simp only at h1 h2
  have hR : EARTH_RADIUS ≠ 0 := by norm_num [EARTH_RADIUS]
  have hpi := Real.pi_pos
  have hpne : Real.pi ≠ 0 := ne_of_gt hpi
  have h180 : (0 : ℝ) < Real.pi / 180 := by positivity
  have hphi2 : lat * Real.pi / 180 < Real.pi / 2 := by
    have hm := mul_lt_mul_of_pos_right h2 h180
    calc lat * Real.pi / 180 = lat * (Real.pi / 180) := by ring
    _ < 90 * (Real.pi / 180) := hm
    _ = Real.pi / 2 := by ring
  have hphi1 : -(Real.pi / 2) < lat * Real.pi / 180 := by
    have hm := mul_lt_mul_of_pos_right h1 h180
    calc -(Real.pi / 2) = -90 * (Real.pi / 180) := by ring
    _ < lat * (Real.pi / 180) := hm
    _ = lat * Real.pi / 180 := by ring
  have hth0 : 0 < Real.pi / 4 + lat * Real.pi / 180 / 2 := by linarith
  have hth2 : Real.pi / 4 + lat * Real.pi / 180 / 2 < Real.pi / 2 := by
    linarith
  have htan : 0 < Real.tan (Real.pi / 4 + lat * Real.pi / 180 / 2) :=
    Real.tan_pos_of_pos_of_lt_pi_div_two hth0 hth2
  unfold mercatorFwd mercatorInv
  simp only
  rw [Prod.mk.injEq]
  constructor
  · field_simp
    ring
  · have hcancel :
        EARTH_RADIUS *
            Real.log (Real.tan (Real.pi / 4 + lat * Real.pi / 180 / 2)) /
          EARTH_RADIUS =
        Real.log (Real.tan (Real.pi / 4 + lat * Real.pi / 180 / 2)) := by
      field_simp
    rw [hcancel, Real.exp_log htan,
      Real.arctan_tan (by linarith) hth2]
    field_simp
    ring

/-- C7: reprojecting a geographic collection to the metric frame and
back reproduces the original coordinates exactly, hence within any
positive tolerance such as 1e-6 degrees; no feature is dropped or
reordered and every attribute is untouched. -/
theorem reproject_roundtrip_spec :
    ∀ {α : Type} (coll : List ((ℝ × ℝ) × α)),
      (∀ f ∈ coll, -90 < f.1.2 ∧ f.1.2 < 90) →
      reprojectColl mercatorInv (reprojectColl mercatorFwd coll) = coll := by
  intro α coll h
  unfold reprojectColl
  rw [List.map_map]
  have hcong : ∀ f ∈ coll,
      ((fun f => (mercatorInv f.1, f.2)) ∘
        fun f => (mercatorFwd f.1, f.2)) f = id f := by
    intro f hf
    obtain ⟨hf1, hf2⟩ := h f hf
    show (mercatorInv (mercatorFwd f.1), f.2) = f
    rw [mercator_roundtrip_point f.1 hf1 hf2]
  rw [List.map_congr_left hcong, List.map_id]

/-- Witness collection for the round-trip law: one feature at the
origin. -/
def c7Coll : List ((ℝ × ℝ) × String) := [((0, 0), "a")]

/-- Witness for C7 at the concrete one-feature collection. -/
theorem reproject_roundtrip_witness :
    (∀ f ∈ c7Coll, -90 < f.1.2 ∧ f.1.2 < 90) ∧
    reprojectColl mercatorInv (reprojectColl mercatorFwd c7Coll) = c7Coll :=
  ⟨by norm_num [c7Coll],
   reproject_roundtrip_spec c7Coll (by norm_num [c7Coll])⟩

end OsmConflation
